import Mathlib

/-!
Verification development for the ZeroTier Go `Identity` component
(`go/pkg/zerotier/identity.go`).

Go byte slices are modelled as `List (Fin 256)`, Go strings as `List Char`.
External collaborators (the C cryptographic engine, the Go standard library
codecs, the `Address` parser from the sibling file) are modelled faithfully:
stdlib codecs by executable Lean translations of their documented behaviour,
the engine as a record of abstract functions.
-/

namespace ZeroTier

/-- A byte, as stored in a Go `[]byte`. -/
abbrev Byte := Fin 256

/-- A Go byte slice.  A nil slice and an empty slice are both `[]`
(Go's `bytes.Equal` treats them as equal, and `len` is 0 for both). -/
abbrev Bytes := List Byte

/-- A Go string, as a list of characters. -/
abbrev Str := List Char

/-- The distinct error values the identity code can return.
`invalidParameter` is `ErrInvalidParameter`, `unrecognizedIdentityType` is
`ErrUnrecognizedIdentityType`, `invalidKey` is `ErrInvalidKey`;
`addressError` stands for whatever error `NewAddressFromString` returns,
`hexError` / `base32Error` for the decode errors of the two codecs,
`jsonError` for a `json.Unmarshal` failure, and the last four for the
`errors.New` values created inside `MakeRoot`. -/
inductive ZTError where
  | invalidParameter
  | internal
  | unrecognizedIdentityType
  | invalidKey
  | addressError
  | hexError
  | base32Error
  | jsonError
  | emptyAddressList
  | engineInitError
  | invalidAddress
  | rootSpecError
deriving DecidableEq, Repr

/- Constants from node/Identity.hpp, as mirrored at the top of identity.go. -/

def IdentityTypeC25519 : Nat := 0
def IdentityTypeP384 : Nat := 1
def IdentityTypeC25519PublicKeySize : Nat := 64
def IdentityTypeC25519PrivateKeySize : Nat := 64
def IdentityTypeP384PublicKeySize : Nat := 114
def IdentityTypeP384PrivateKeySize : Nat := 112

/-! ## Go string utilities used by the parser -/

/-- Go's `unicode.IsSpace`, the predicate behind `strings.TrimSpace`. -/
def isGoSpace (c : Char) : Bool :=
  c.toNat = 9 || c.toNat = 10 || c.toNat = 11 || c.toNat = 12 || c.toNat = 13 ||
  c.toNat = 32 || c.toNat = 0x85 || c.toNat = 0xA0 || c.toNat = 0x1680 ||
  (0x2000 ≤ c.toNat && c.toNat ≤ 0x200A) || c.toNat = 0x2028 || c.toNat = 0x2029 ||
  c.toNat = 0x202F || c.toNat = 0x205F || c.toNat = 0x3000

/-- Go's `strings.TrimSpace`. -/
def trimSpace (s : Str) : Str :=
  ((s.dropWhile isGoSpace).reverse.dropWhile isGoSpace).reverse

/-- Go's `strings.Split(s, ":")`: the fields between the colons.
It always returns at least one (possibly empty) field. -/
def splitColon : Str → List Str
  | [] => [[]]
  | c :: rest =>
    if c = ':' then [] :: splitColon rest
    else
      match splitColon rest with
      | f :: fs => (c :: f) :: fs
      | [] => [[c]]

/-! ## Hexadecimal codec (Go `encoding/hex` and `fmt %x` / `%.10x`) -/

/-- The value of one hex digit, as accepted by Go's `hex.DecodeString` and
`strconv.ParseUint(_, 16, _)`: both cases are accepted. -/
def hexCharVal (c : Char) : Option (Fin 16) :=
  if hd : 48 ≤ c.toNat ∧ c.toNat ≤ 57 then some ⟨c.toNat - 48, by omega⟩
  else if hl : 97 ≤ c.toNat ∧ c.toNat ≤ 102 then some ⟨c.toNat - 87, by omega⟩
  else if hu : 65 ≤ c.toNat ∧ c.toNat ≤ 70 then some ⟨c.toNat - 55, by omega⟩
  else none

/-- The lowercase hex digit for a value, as printed by Go's `%x` verb. -/
def hexDigitChar (v : Fin 16) : Char :=
  match v.val with
  | 0 => '0' | 1 => '1' | 2 => '2' | 3 => '3'
  | 4 => '4' | 5 => '5' | 6 => '6' | 7 => '7'
  | 8 => '8' | 9 => '9' | 10 => 'a' | 11 => 'b'
  | 12 => 'c' | 13 => 'd' | 14 => 'e' | _ => 'f'

/-- High nibble of a byte. -/
def hiNibble (b : Byte) : Fin 16 := ⟨b.val / 16, by omega⟩

/-- Low nibble of a byte. -/
def loNibble (b : Byte) : Fin 16 := ⟨b.val % 16, by omega⟩

/-- Go's `fmt.Sprintf("%x", bytes)`: two lowercase hex digits per byte. -/
def bytesToHex : Bytes → Str
  | [] => []
  | b :: r => hexDigitChar (hiNibble b) :: hexDigitChar (loNibble b) :: bytesToHex r

/-- Go's `hex.DecodeString`: fails on odd length or a non-hex character. -/
def hexDecode : Str → Option Bytes
  | [] => some []
  | [_] => none
  | c1 :: c2 :: r =>
    match hexCharVal c1, hexCharVal c2, hexDecode r with
    | some h, some l, some bs => some (⟨16 * h.val + l.val, by omega⟩ :: bs)
    | _, _, _ => none

/-! ## Base-32 codec

`Base32StdLowerCase` in the repository is Go's `encoding/base32` with the
lowercase standard alphabet `abcdefghijklmnopqrstuvwxyz234567` and, per the
spec, no padding characters.  We model it bit-exactly: encoding emits one
alphabet character per 5-bit group (most significant bit first, the final
group zero-padded); decoding maps characters back to 5-bit groups, rejects
character counts that no byte string encodes to (count mod 8 in {1,3,6}),
and keeps the first 8·⌊5·count/8⌋ bits. -/

/-- The value of one character of the lowercase standard base-32 alphabet. -/
def b32CharVal (c : Char) : Option (Fin 32) :=
  match c with
  | 'a' => some 0 | 'b' => some 1 | 'c' => some 2 | 'd' => some 3
  | 'e' => some 4 | 'f' => some 5 | 'g' => some 6 | 'h' => some 7
  | 'i' => some 8 | 'j' => some 9 | 'k' => some 10 | 'l' => some 11
  | 'm' => some 12 | 'n' => some 13 | 'o' => some 14 | 'p' => some 15
  | 'q' => some 16 | 'r' => some 17 | 's' => some 18 | 't' => some 19
  | 'u' => some 20 | 'v' => some 21 | 'w' => some 22 | 'x' => some 23
  | 'y' => some 24 | 'z' => some 25 | '2' => some 26 | '3' => some 27
  | '4' => some 28 | '5' => some 29 | '6' => some 30 | '7' => some 31
  | _ => none

/-- The alphabet character for a 5-bit value. -/
def b32ValChar (v : Fin 32) : Char :=
  match v.val with
  | 0 => 'a' | 1 => 'b' | 2 => 'c' | 3 => 'd'
  | 4 => 'e' | 5 => 'f' | 6 => 'g' | 7 => 'h'
  | 8 => 'i' | 9 => 'j' | 10 => 'k' | 11 => 'l'
  | 12 => 'm' | 13 => 'n' | 14 => 'o' | 15 => 'p'
  | 16 => 'q' | 17 => 'r' | 18 => 's' | 19 => 't'
  | 20 => 'u' | 21 => 'v' | 22 => 'w' | 23 => 'x'
  | 24 => 'y' | 25 => 'z' | 26 => '2' | 27 => '3'
  | 28 => '4' | 29 => '5' | 30 => '6' | _ => '7'

/-- The eight bits of a byte, most significant first. -/
def byteBits (b : Byte) : List Bool :=
  [b.val.testBit 7, b.val.testBit 6, b.val.testBit 5, b.val.testBit 4,
   b.val.testBit 3, b.val.testBit 2, b.val.testBit 1, b.val.testBit 0]

/-- The bit stream of a byte string, most significant bit of each byte first. -/
def bytesToBits : Bytes → List Bool
  | [] => []
  | b :: r => byteBits b ++ bytesToBits r

/-- The value of a bit list read most-significant-first. -/
def bitsVal : List Bool → Nat
  | [] => 0
  | b :: r => (if b then 2 ^ r.length else 0) + bitsVal r

/-- The five bits of a 5-bit group, most significant first. -/
def bits5 (v : Fin 32) : List Bool :=
  [v.val.testBit 4, v.val.testBit 3, v.val.testBit 2, v.val.testBit 1, v.val.testBit 0]

/-- Split a bit stream into 5-bit groups, zero-padding the final group. -/
def chunk5 : List Bool → List (List Bool)
  | [] => []
  | b0 :: b1 :: b2 :: b3 :: b4 :: rest => [b0, b1, b2, b3, b4] :: chunk5 rest
  | [b0] => [[b0, false, false, false, false]]
  | [b0, b1] => [[b0, b1, false, false, false]]
  | [b0, b1, b2] => [[b0, b1, b2, false, false]]
  | [b0, b1, b2, b3] => [[b0, b1, b2, b3, false]]

/-- The 5-bit value of one (length-≤5) group. -/
def group5Val (l : List Bool) : Fin 32 :=
  ⟨bitsVal l % 32, Nat.mod_lt _ (by omega)⟩

/-- The byte whose bits (most significant first) are the given list. -/
def byteOfBits (l : List Bool) : Byte :=
  ⟨bitsVal l % 256, Nat.mod_lt _ (by omega)⟩

/-- Reassemble bytes from a bit stream, dropping any final group of fewer
than eight bits. -/
def bytesFromBits : List Bool → Bytes
  | b0 :: b1 :: b2 :: b3 :: b4 :: b5 :: b6 :: b7 :: rest =>
    byteOfBits [b0, b1, b2, b3, b4, b5, b6, b7] :: bytesFromBits rest
  | _ => []

/-- `Base32StdLowerCase.EncodeToString`. -/
def b32EncodeToString (bs : Bytes) : Str :=
  (chunk5 (bytesToBits bs)).map (fun g => b32ValChar (group5Val g))

/-- Map each character of a base-32 text to its 5-bit value, failing on the
first character outside the alphabet. -/
def b32CharsToVals : Str → Option (List (Fin 32))
  | [] => some []
  | c :: r =>
    match b32CharVal c, b32CharsToVals r with
    | some v, some vs => some (v :: vs)
    | _, _ => none

/-- Concatenate the bits of a list of 5-bit values. -/
def valsToBits : List (Fin 32) → List Bool
  | [] => []
  | v :: r => bits5 v ++ valsToBits r

/-- `Base32StdLowerCase.DecodeString` (unpadded decode). -/
def b32DecodeString (s : Str) : Option Bytes :=
  match b32CharsToVals s with
  | none => none
  | some vs =>
    if s.length % 8 = 1 ∨ s.length % 8 = 3 ∨ s.length % 8 = 6 then none
    else some (bytesFromBits (valsToBits vs))

/-! ## Addresses -/

/-- A ZeroTier address: an opaque 40-bit node identifier (spec §3). -/
abbrev Address := Fin (2 ^ 40)

/-- The value of a hex string with accumulator (Go `strconv.ParseUint` base 16). -/
def hexStrValAux (acc : Nat) : Str → Option Nat
  | [] => some acc
  | c :: r =>
    match hexCharVal c with
    | some v => hexStrValAux (16 * acc + v.val) r
    | none => none

/-- Modelled from the spec: `NewAddressFromString` lives in the sibling
`address.go`, not in this file; per spec §3 an address is an "opaque 40-bit
(10 hex-digit) node identifier".  The parser requires exactly ten hex digits
and yields their value. -/
def NewAddressFromString (s : Str) : Except ZTError Address :=
  if s.length = 10 then
    match hexStrValAux 0 s with
    | some v =>
      if h : v < 2 ^ 40 then Except.ok ⟨v, h⟩ else Except.error ZTError.addressError
    | none => Except.error ZTError.addressError
  else Except.error ZTError.addressError

/-- Go's `fmt.Sprintf("%.10x", _)` applied to a 40-bit value: exactly `w`
lowercase hex digits, most significant first. -/
def natToHexFixed : Nat → Nat → Str
  | 0, _ => []
  | w + 1, n => natToHexFixed w (n / 16) ++ [hexDigitChar ⟨n % 16, Nat.mod_lt _ (by omega)⟩]

/-- The ten-hex-digit rendering of an address used by both serializers. -/
def addrHex10 (a : Address) : Str := natToHexFixed 10 a.val

/-! ## The Identity value and its text codec (identity.go) -/

/-- The value part of `zerotier.Identity`: address, type tag, public key,
optional private key.  A missing private key is the empty byte string (Go's
nil slice; `len` and `bytes.Equal` cannot tell nil from empty).  The lazily
created C-side handle `cid` is not part of the value; the operations that
need it take the engine as an explicit argument below. -/
structure Identity where
  address : Address
  idtype : Nat
  publicKey : Bytes
  privateKey : Bytes
deriving DecidableEq, Repr

/-- The body of `NewIdentityFromString` after `strings.Split`: the field
list is examined exactly as in the Go source (address first, then the suite
tag, then the per-suite key decoding and length checks). -/
def parseFields (ss : List Str) : Except ZTError Identity :=
  match ss with
  | [] => Except.error ZTError.invalidParameter
  | [_] => Except.error ZTError.invalidParameter
  | [_, _] => Except.error ZTError.invalidParameter
  | a :: t :: k :: rest =>
    match NewAddressFromString a with
    | Except.error e => Except.error e
    | Except.ok addr =>
      if t = '0' :: [] then
        match hexDecode k with
        | none => Except.error ZTError.hexError
        | some pub =>
          match rest with
          | [] => Except.ok ⟨addr, 0, pub, []⟩
          | k2 :: _ =>
            match hexDecode k2 with
            | none => Except.error ZTError.hexError
            | some priv => Except.ok ⟨addr, 0, pub, priv⟩
      else if t = '1' :: [] then
        match b32DecodeString k with
        | none => Except.error ZTError.base32Error
        | some pub =>
          if pub.length ≠ IdentityTypeP384PublicKeySize then
            Except.error ZTError.invalidKey
          else
            match rest with
            | [] => Except.ok ⟨addr, 1, pub, []⟩
            | k2 :: _ =>
              match b32DecodeString k2 with
              | none => Except.error ZTError.base32Error
              | some priv =>
                if priv.length ≠ IdentityTypeP384PrivateKeySize then
                  Except.error ZTError.invalidKey
                else Except.ok ⟨addr, 1, pub, priv⟩
      else Except.error ZTError.unrecognizedIdentityType

/-- `NewIdentityFromString`: trim whitespace, split on `:`; fewer than three
fields is `ErrInvalidParameter`; otherwise parse the fields. -/
def NewIdentityFromString (s : Str) : Except ZTError Identity :=
  parseFields (splitColon (trimSpace s))

/-- `(*Identity).HasPrivate`. -/
def Identity.HasPrivate (id : Identity) : Bool := id.privateKey.length > 0

/-- `(*Identity).String`: the public canonical form
`<10 hex digits>:<suite>:<public key>`, or the empty string when the public
key does not have the exact length the suite requires (or the type tag is
neither 0 nor 1). -/
def Identity.String (id : Identity) : Str :=
  if id.idtype = IdentityTypeC25519 then
    if id.publicKey.length = IdentityTypeC25519PublicKeySize then
      addrHex10 id.address ++ (':' :: '0' :: ':' :: bytesToHex id.publicKey)
    else []
  else if id.idtype = IdentityTypeP384 then
    if id.publicKey.length = IdentityTypeP384PublicKeySize then
      addrHex10 id.address ++ (':' :: '1' :: ':' :: b32EncodeToString id.publicKey)
    else []
  else []

/-- `(*Identity).PrivateKeyString`: the four-field secret form, or the empty
string unless both keys have exactly the lengths the suite requires. -/
def Identity.PrivateKeyString (id : Identity) : Str :=
  if id.idtype = IdentityTypeC25519 then
    if id.publicKey.length = IdentityTypeC25519PublicKeySize ∧
        id.privateKey.length = IdentityTypeC25519PrivateKeySize then
      addrHex10 id.address ++ (':' :: '0' :: ':' :: bytesToHex id.publicKey) ++
        (':' :: bytesToHex id.privateKey)
    else []
  else if id.idtype = IdentityTypeP384 then
    if id.publicKey.length = IdentityTypeP384PublicKeySize ∧
        id.privateKey.length = IdentityTypeP384PrivateKeySize then
      addrHex10 id.address ++ (':' :: '1' :: ':' :: b32EncodeToString id.publicKey) ++
        (':' :: b32EncodeToString id.privateKey)
    else []
  else []

/-- `(*Identity).Equals`, including the nil-receiver and nil-argument cases
(`none` is a nil `*Identity`).  `bytes.Equal` is list equality. -/
def Identity.Equals (id id2 : Option Identity) : Bool :=
  match id2 with
  | none => id.isNone
  | some b =>
    match id with
    | none => false
    | some a =>
      a.address == b.address && a.idtype == b.idtype &&
        a.publicKey == b.publicKey && a.privateKey == b.privateKey

/-- The spec's `publicOnlyVersionOf(i)`: same address, suite and public key,
no private key. -/
def publicOnlyVersionOf (id : Identity) : Identity := { id with privateKey := [] }

/-! ## The cryptographic engine façade

The C engine (`GoGlue` / `ZT_Identity_*`) is external; per spec §6 it is a
capability record.  `fromString` is `ZT_Identity_fromString` (`none` is a
null handle), `verify` is `ZT_Identity_verify`'s boolean verdict,
`makeRootSpec` is `ZT_Identity_makeRootSpecification` returning the reported
length and the contents of the 8192-byte output buffer after the call, and
`makeSockaddrStorage` is GoGlue's conversion of one `InetAddress` (`none`
when the conversion reports failure). -/
structure CryptoEngine (H A S : Type) where
  fromString : Str → Option H
  verify : H → Bytes → Bytes → Bool
  makeRootSpec : H → Int → List S → Int × (Nat → Byte)
  makeSockaddrStorage : A → Option S

/-- `initCIdentityPtr` for an identity whose handle is not yet created: the
C handle is materialized from the *public* string form `id.String()`
(identity.go line 82); it fails exactly when the engine returns null. -/
def initCIdentity {H A S : Type} (eng : CryptoEngine H A S) (id : Identity) : Option H :=
  eng.fromString (Identity.String id)

/-- `(*Identity).Verify`: false on an empty signature or a failed handle
acquisition, otherwise the engine's verdict.  The Go function returns a bare
`bool` — it has no error channel at all. -/
def Identity.Verify {H A S : Type} (eng : CryptoEngine H A S) (id : Identity)
    (msg sig : Bytes) : Bool :=
  if sig.length = 0 then false
  else
    match initCIdentity eng id with
    | none => false
    | some h => eng.verify h msg sig

/-- Convert every address in order, stopping at the first failure — the loop
in `MakeRoot` (identity.go lines 244–248). -/
def convertAddresses {A S : Type} (f : A → Option S) : List A → Option (List S)
  | [] => some []
  | a :: r =>
    match f a with
    | none => none
    | some s =>
      match convertAddresses f r with
      | none => none
      | some ss => some (s :: ss)

/-- `(*Identity).MakeRoot`.  `now` stands for the `TimeMs()` wall-clock read;
on success the result is the first `rl` bytes of the engine's output buffer. -/
def Identity.MakeRoot {H A S : Type} (eng : CryptoEngine H A S) (id : Identity)
    (addresses : List A) (now : Int) : Except ZTError Bytes :=
  if addresses.length = 0 then Except.error ZTError.emptyAddressList
  else
    match initCIdentity eng id with
    | none => Except.error ZTError.engineInitError
    | some h =>
      match convertAddresses eng.makeSockaddrStorage addresses with
      | none => Except.error ZTError.invalidAddress
      | some ss =>
        let r := eng.makeRootSpec h now ss
        if r.1 ≤ 0 then Except.error ZTError.rootSpecError
        else Except.ok ((List.range r.1.toNat).map r.2)

/-! ## JSON -/

/-- Modelled from the spec: `json.Unmarshal(j, &s)` for a string target is
Go standard library code; per spec §6 the JSON form is "a single JSON
string".  We accept a double-quoted string literal (escape sequences
elided: a backslash or interior quote is rejected) and fail on anything
else. -/
def jsonUnmarshalString (j : Str) : Option Str :=
  match j with
  | '"' :: rest =>
    if rest.getLast? = some '"' ∧ '"' ∉ rest.dropLast ∧ '\\' ∉ rest.dropLast then
      some rest.dropLast
    else none
  | _ => none

/-- `(*Identity).UnmarshalJSON` as a state transformer: the returned pair is
(the Go error result, the contents of `*id` after the call).  The target is
overwritten (`*id = *nid`) only after both the JSON decode and the identity
parse succeed. -/
def Identity.UnmarshalJSON (id : Identity) (j : Str) : Option ZTError × Identity :=
  match jsonUnmarshalString j with
  | none => (some ZTError.jsonError, id)
  | some s =>
    match NewIdentityFromString s with
    | Except.error e => (some e, id)
    | Except.ok nid => (none, nid)

/-! ## Lemmas: hex codec -/

theorem hexCharVal_hexDigitChar (v : Fin 16) : hexCharVal (hexDigitChar v) = some v := by
  revert v; decide

theorem hexDigitChar_ne_colon (v : Fin 16) : hexDigitChar v ≠ ':' := by
  revert v; decide

theorem isGoSpace_hexDigitChar (v : Fin 16) : isGoSpace (hexDigitChar v) = false := by
  revert v; decide

theorem hexDecode_bytesToHex (bs : Bytes) : hexDecode (bytesToHex bs) = some bs := by
  induction bs with
  | nil => rfl
  | cons b r ih =>
    have hb : (⟨16 * (hiNibble b).val + (loNibble b).val, by omega⟩ : Byte) = b := by
      apply Fin.ext
      show 16 * (b.val / 16) + b.val % 16 = b.val
      omega
    simp [bytesToHex, hexDecode, hexCharVal_hexDigitChar, ih, hb]

theorem mem_bytesToHex_ne_colon (bs : Bytes) : ':' ∉ bytesToHex bs := by
  induction bs with
  | nil => simp [bytesToHex]
  | cons b r ih =>
    simp only [bytesToHex, List.mem_cons, not_or]
    exact ⟨(hexDigitChar_ne_colon _).symm, (hexDigitChar_ne_colon _).symm, ih⟩

theorem mem_bytesToHex_not_space (bs : Bytes) :
    ∀ c ∈ bytesToHex bs, isGoSpace c = false := by
  induction bs with
  | nil => simp [bytesToHex]
  | cons b r ih =>
    intro c hc
    simp only [bytesToHex, List.mem_cons] at hc
    rcases hc with h | h | h
    · simpa [h] using isGoSpace_hexDigitChar (hiNibble b)
    · simpa [h] using isGoSpace_hexDigitChar (loNibble b)
    · exact ih c h

/-! ## Lemmas: trim and split -/

theorem dropWhile_eq_self_of_all {l : Str} (h : ∀ c ∈ l, isGoSpace c = false) :
    l.dropWhile isGoSpace = l := by
  cases l with
  | nil => rfl
  | cons c r =>
    have : isGoSpace c = false := h c (by simp)
    simp [List.dropWhile, this]

theorem trimSpace_eq_self {l : Str} (h : ∀ c ∈ l, isGoSpace c = false) :
    trimSpace l = l := by
  unfold trimSpace
  rw [dropWhile_eq_self_of_all h, dropWhile_eq_self_of_all, List.reverse_reverse]
  intro c hc
  exact h c (by simpa using hc)

theorem splitColon_ne_nil (l : Str) : splitColon l ≠ [] := by
  cases l with
  | nil => simp [splitColon]
  | cons c r =>
    by_cases h : c = ':'
    · simp [splitColon, h]
    · simp only [splitColon, if_neg h]
      cases splitColon r <;> simp

theorem splitColon_append {a : Str} (ha : ':' ∉ a) (r : Str) :
    splitColon (a ++ ':' :: r) = a :: splitColon r := by
  induction a with
  | nil => simp [splitColon]
  | cons c t ih =>
    have hc : c ≠ ':' := by intro h; exact ha (by simp [h])
    have ht : ':' ∉ t := by intro h; exact ha (by simp [h])
    simp only [List.cons_append, splitColon, if_neg hc, List.append_eq, ih ht]

theorem splitColon_noColon {a : Str} (ha : ':' ∉ a) : splitColon a = [a] := by
  induction a with
  | nil => rfl
  | cons c t ih =>
    have hc : c ≠ ':' := by intro h; exact ha (by simp [h])
    have ht : ':' ∉ t := by intro h; exact ha (by simp [h])
    simp only [splitColon, if_neg hc, ih ht]

/-! ## Lemmas: addresses -/

theorem natToHexFixed_length (w : Nat) : ∀ n, (natToHexFixed w n).length = w := by
  induction w with
  | zero => intro n; rfl
  | succ w ih => intro n; simp [natToHexFixed, ih]

theorem natToHexFixed_ne_colon (w : Nat) : ∀ n, ':' ∉ natToHexFixed w n := by
  induction w with
  | zero => intro n; simp [natToHexFixed]
  | succ w ih =>
    intro n
    simp only [natToHexFixed, List.mem_append, List.mem_singleton, not_or]
    exact ⟨ih _, (hexDigitChar_ne_colon _).symm⟩

theorem natToHexFixed_not_space (w : Nat) :
    ∀ n, ∀ c ∈ natToHexFixed w n, isGoSpace c = false := by
  induction w with
  | zero => intro n; simp [natToHexFixed]
  | succ w ih =>
    intro n c hc
    simp only [natToHexFixed, List.mem_append, List.mem_singleton] at hc
    rcases hc with h | h
    · exact ih _ c h
    · simpa [h] using isGoSpace_hexDigitChar _

theorem hexStrValAux_natToHexFixed (w : Nat) :
    ∀ acc n rest, n < 16 ^ w →
      hexStrValAux acc (natToHexFixed w n ++ rest) = hexStrValAux (acc * 16 ^ w + n) rest := by
  induction w with
  | zero =>
    intro acc n rest hn
    interval_cases n
    simp [natToHexFixed]
  | succ w ih =>
    intro acc n rest hn
    have hdiv : n / 16 < 16 ^ w := by
      have : 16 ^ (w + 1) = 16 ^ w * 16 := pow_succ 16 w
      omega
    simp only [natToHexFixed, List.append_assoc, List.cons_append, List.nil_append]
    rw [ih acc (n / 16) _ hdiv]
    simp only [hexStrValAux, hexCharVal_hexDigitChar]
    have harith : 16 * (acc * 16 ^ w + n / 16) + n % 16 =
        acc * 16 ^ (w + 1) + (16 * (n / 16) + n % 16) := by ring
    rw [harith]
    congr 1
    omega

theorem NewAddressFromString_addrHex10 (a : Address) :
    NewAddressFromString (addrHex10 a) = Except.ok a := by
  have hlen : (addrHex10 a).length = 10 := natToHexFixed_length 10 a.val
  have hval : hexStrValAux 0 (addrHex10 a) = some a.val := by
    have ha : a.val < 16 ^ 10 := by
      have := a.isLt
      norm_num at this ⊢
      omega
    have := hexStrValAux_natToHexFixed 10 0 a.val [] ha
    simpa [addrHex10, hexStrValAux] using this
  have ha40 : a.val < 2 ^ 40 := a.isLt
  simp [NewAddressFromString, hlen, hval, ha40]

/-! ## Lemmas: base-32 codec -/

theorem b32CharVal_b32ValChar (v : Fin 32) : b32CharVal (b32ValChar v) = some v := by
  revert v; decide

theorem b32ValChar_ne_colon (v : Fin 32) : b32ValChar v ≠ ':' := by
  revert v; decide

theorem isGoSpace_b32ValChar (v : Fin 32) : isGoSpace (b32ValChar v) = false := by
  revert v; decide

theorem b32CharsToVals_map (vs : List (Fin 32)) :
    b32CharsToVals (vs.map b32ValChar) = some vs := by
  induction vs with
  | nil => rfl
  | cons v r ih => simp [b32CharsToVals, b32CharVal_b32ValChar, ih]

theorem bits5_group5Val_len5 : ∀ a b c d e : Bool,
    bits5 (group5Val [a, b, c, d, e]) = [a, b, c, d, e] := by decide

set_option maxRecDepth 4096 in
theorem byteOfBits_byteBits : ∀ b : Byte, byteOfBits (byteBits b) = b := by decide

theorem chunk5_map_group5Val_bits (l : List Bool) :
    valsToBits ((chunk5 l).map group5Val) =
      l ++ List.replicate ((5 - l.length % 5) % 5) false := by
  induction l using chunk5.induct with
  | case1 => rfl
  | case2 b0 b1 b2 b3 b4 rest ih =>
    have h5 : (5 - (rest.length + 1 + 1 + 1 + 1 + 1) % 5) % 5 =
        (5 - rest.length % 5) % 5 := by omega
    simp only [chunk5, List.map_cons, valsToBits, bits5_group5Val_len5, ih,
      List.length_cons, h5, List.cons_append, List.nil_append]
  | case3 b0 => simp [chunk5, valsToBits, bits5_group5Val_len5, List.replicate]
  | case4 b0 b1 => simp [chunk5, valsToBits, bits5_group5Val_len5, List.replicate]
  | case5 b0 b1 b2 => simp [chunk5, valsToBits, bits5_group5Val_len5, List.replicate]
  | case6 b0 b1 b2 b3 => simp [chunk5, valsToBits, bits5_group5Val_len5, List.replicate]

theorem chunk5_length (l : List Bool) : (chunk5 l).length = (l.length + 4) / 5 := by
  induction l using chunk5.induct with
  | case1 => rfl
  | case2 b0 b1 b2 b3 b4 rest ih =>
    simp only [chunk5, List.length_cons, ih]
    omega
  | case3 b0 => simp [chunk5]
  | case4 b0 b1 => simp [chunk5]
  | case5 b0 b1 b2 => simp [chunk5]
  | case6 b0 b1 b2 b3 => simp [chunk5]

theorem bytesToBits_length (bs : Bytes) : (bytesToBits bs).length = 8 * bs.length := by
  induction bs with
  | nil => rfl
  | cons b r ih => simp [bytesToBits, byteBits, ih]; omega

theorem bytesFromBits_short : ∀ l : List Bool, l.length < 8 → bytesFromBits l = []
  | [], _ => rfl
  | [_], _ => rfl
  | [_, _], _ => rfl
  | [_, _, _], _ => rfl
  | [_, _, _, _], _ => rfl
  | [_, _, _, _, _], _ => rfl
  | [_, _, _, _, _, _], _ => rfl
  | [_, _, _, _, _, _, _], _ => rfl
  | _ :: _ :: _ :: _ :: _ :: _ :: _ :: _ :: _, h => by simp at h; omega

theorem bytesFromBits_bytesToBits_append (bs : Bytes) :
    ∀ extra : List Bool, extra.length < 8 → bytesFromBits (bytesToBits bs ++ extra) = bs := by
  induction bs with
  | nil => intro extra h; exact bytesFromBits_short extra h
  | cons b r ih =>
    intro extra h
    have hsplit : bytesToBits (b :: r) ++ extra = byteBits b ++ (bytesToBits r ++ extra) := by
      simp [bytesToBits]
    rw [hsplit]
    have hstep : bytesFromBits (byteBits b ++ (bytesToBits r ++ extra)) =
        byteOfBits (byteBits b) :: bytesFromBits (bytesToBits r ++ extra) := by
      simp only [byteBits, List.cons_append, List.nil_append]
      rfl
    rw [hstep, byteOfBits_byteBits, ih extra h]

theorem b32DecodeString_b32EncodeToString (bs : Bytes) :
    b32DecodeString (b32EncodeToString bs) = some bs := by
  have hmap : b32EncodeToString bs = ((chunk5 (bytesToBits bs)).map group5Val).map b32ValChar := by
    simp [b32EncodeToString, List.map_map]
  have hvals : b32CharsToVals (b32EncodeToString bs) =
      some ((chunk5 (bytesToBits bs)).map group5Val) := by
    rw [hmap]; exact b32CharsToVals_map _
  have hlen : (b32EncodeToString bs).length = (8 * bs.length + 4) / 5 := by
    rw [hmap]
    simp [chunk5_length, bytesToBits_length]
  have hmod : ¬((b32EncodeToString bs).length % 8 = 1 ∨
      (b32EncodeToString bs).length % 8 = 3 ∨ (b32EncodeToString bs).length % 8 = 6) := by
    rw [hlen]
    omega
  have hbits : valsToBits ((chunk5 (bytesToBits bs)).map group5Val) =
      bytesToBits bs ++ List.replicate ((5 - (bytesToBits bs).length % 5) % 5) false :=
    chunk5_map_group5Val_bits _
  have hpadlen : (List.replicate ((5 - (bytesToBits bs).length % 5) % 5) false).length < 8 := by
    simp only [List.length_replicate]
    omega
  simp only [b32DecodeString, hvals, if_neg hmod, hbits,
    bytesFromBits_bytesToBits_append bs _ hpadlen]

theorem mem_b32EncodeToString_ne_colon (bs : Bytes) : ':' ∉ b32EncodeToString bs := by
  intro h
  simp only [b32EncodeToString, List.mem_map] at h
  obtain ⟨g, _, hg⟩ := h
  exact b32ValChar_ne_colon _ hg

theorem mem_b32EncodeToString_not_space (bs : Bytes) :
    ∀ c ∈ b32EncodeToString bs, isGoSpace c = false := by
  intro c hc
  simp only [b32EncodeToString, List.mem_map] at hc
  obtain ⟨g, _, hg⟩ := hc
  rw [← hg]
  exact isGoSpace_b32ValChar _

/-! ## Lemmas: splitting a canonical identity string back into its fields -/

theorem addrHex10_ne_colon (a : Address) : ':' ∉ addrHex10 a :=
  natToHexFixed_ne_colon 10 a.val

theorem addrHex10_not_space (a : Address) : ∀ c ∈ addrHex10 a, isGoSpace c = false :=
  natToHexFixed_not_space 10 a.val

theorem split_trim_three (f0 f2 : Str) (t : Char)
    (h0c : ':' ∉ f0) (h2c : ':' ∉ f2)
    (h0s : ∀ c ∈ f0, isGoSpace c = false) (h2s : ∀ c ∈ f2, isGoSpace c = false)
    (htc : t ≠ ':') (hts : isGoSpace t = false) :
    splitColon (trimSpace (f0 ++ ':' :: t :: ':' :: f2)) = [f0, [t], f2] := by
  have htrim : trimSpace (f0 ++ ':' :: t :: ':' :: f2) = f0 ++ ':' :: t :: ':' :: f2 := by
    apply trimSpace_eq_self
    intro c hc
    simp only [List.mem_append, List.mem_cons] at hc
    rcases hc with h | h | h | h | h
    · exact h0s c h
    · simp [h, isGoSpace]
    · simpa [h] using hts
    · simp [h, isGoSpace]
    · exact h2s c h
  have htcol : ':' ∉ [t] := by simpa using Ne.symm htc
  rw [htrim, splitColon_append h0c,
    show t :: ':' :: f2 = [t] ++ ':' :: f2 from rfl, splitColon_append htcol,
    splitColon_noColon h2c]

theorem split_trim_four (f0 f2 f3 : Str) (t : Char)
    (h0c : ':' ∉ f0) (h2c : ':' ∉ f2) (h3c : ':' ∉ f3)
    (h0s : ∀ c ∈ f0, isGoSpace c = false) (h2s : ∀ c ∈ f2, isGoSpace c = false)
    (h3s : ∀ c ∈ f3, isGoSpace c = false)
    (htc : t ≠ ':') (hts : isGoSpace t = false) :
    splitColon (trimSpace (f0 ++ ':' :: t :: ':' :: (f2 ++ ':' :: f3))) =
      [f0, [t], f2, f3] := by
  have htrim : trimSpace (f0 ++ ':' :: t :: ':' :: (f2 ++ ':' :: f3)) =
      f0 ++ ':' :: t :: ':' :: (f2 ++ ':' :: f3) := by
    apply trimSpace_eq_self
    intro c hc
    simp only [List.mem_append, List.mem_cons] at hc
    rcases hc with h | h | h | h | h | h | h
    · exact h0s c h
    · simp [h, isGoSpace]
    · simpa [h] using hts
    · simp [h, isGoSpace]
    · exact h2s c h
    · simp [h, isGoSpace]
    · exact h3s c h
  have htcol : ':' ∉ [t] := by simpa using Ne.symm htc
  rw [htrim, splitColon_append h0c,
    show t :: ':' :: (f2 ++ ':' :: f3) = [t] ++ ':' :: (f2 ++ ':' :: f3) from rfl,
    splitColon_append htcol, splitColon_append h2c, splitColon_noColon h3c]

/-! ## Lemmas: parsing back a serialized identity -/

theorem parse_String_c25519 (id : Identity) (h0 : id.idtype = 0)
    (hp : id.publicKey.length = 64) :
    NewIdentityFromString (Identity.String id) = Except.ok (publicOnlyVersionOf id) := by
  have hs : Identity.String id =
      addrHex10 id.address ++ ':' :: '0' :: ':' :: bytesToHex id.publicKey := by
    simp [Identity.String, h0, hp, IdentityTypeC25519, IdentityTypeC25519PublicKeySize]
  rw [NewIdentityFromString, hs,
    split_trim_three _ _ _ (addrHex10_ne_colon id.address)
      (mem_bytesToHex_ne_colon _) (addrHex10_not_space id.address)
      (mem_bytesToHex_not_space _) (by decide) (by decide)]
  simp only [parseFields, NewAddressFromString_addrHex10, hexDecode_bytesToHex]
  simp [publicOnlyVersionOf, ← h0]

theorem parse_String_p384 (id : Identity) (h1 : id.idtype = 1)
    (hp : id.publicKey.length = 114) :
    NewIdentityFromString (Identity.String id) = Except.ok (publicOnlyVersionOf id) := by
  have hs : Identity.String id =
      addrHex10 id.address ++ ':' :: '1' :: ':' :: b32EncodeToString id.publicKey := by
    simp [Identity.String, h1, hp, IdentityTypeC25519, IdentityTypeP384,
      IdentityTypeP384PublicKeySize]
  rw [NewIdentityFromString, hs,
    split_trim_three _ _ _ (addrHex10_ne_colon id.address)
      (mem_b32EncodeToString_ne_colon _) (addrHex10_not_space id.address)
      (mem_b32EncodeToString_not_space _) (by decide) (by decide)]
  simp only [parseFields, NewAddressFromString_addrHex10, b32DecodeString_b32EncodeToString]
  simp [publicOnlyVersionOf, ← h1, hp, IdentityTypeP384PublicKeySize]

theorem parse_PrivateKeyString_c25519 (id : Identity) (h0 : id.idtype = 0)
    (hp : id.publicKey.length = 64) (hk : id.privateKey.length = 64) :
    NewIdentityFromString (Identity.PrivateKeyString id) = Except.ok id := by
  have hs : Identity.PrivateKeyString id =
      addrHex10 id.address ++ ':' :: '0' :: ':' ::
        (bytesToHex id.publicKey ++ ':' :: bytesToHex id.privateKey) := by
    simp [Identity.PrivateKeyString, h0, hp, hk, IdentityTypeC25519,
      IdentityTypeC25519PublicKeySize, IdentityTypeC25519PrivateKeySize]
  rw [NewIdentityFromString, hs,
    split_trim_four _ _ _ _ (addrHex10_ne_colon id.address)
      (mem_bytesToHex_ne_colon _) (mem_bytesToHex_ne_colon _)
      (addrHex10_not_space id.address) (mem_bytesToHex_not_space _)
      (mem_bytesToHex_not_space _) (by decide) (by decide)]
  simp only [parseFields, NewAddressFromString_addrHex10, hexDecode_bytesToHex]
  simp [← h0]

theorem parse_PrivateKeyString_p384 (id : Identity) (h1 : id.idtype = 1)
    (hp : id.publicKey.length = 114) (hk : id.privateKey.length = 112) :
    NewIdentityFromString (Identity.PrivateKeyString id) = Except.ok id := by
  have hs : Identity.PrivateKeyString id =
      addrHex10 id.address ++ ':' :: '1' :: ':' ::
        (b32EncodeToString id.publicKey ++ ':' :: b32EncodeToString id.privateKey) := by
    simp [Identity.PrivateKeyString, h1, hp, hk, IdentityTypeC25519, IdentityTypeP384,
      IdentityTypeP384PublicKeySize, IdentityTypeP384PrivateKeySize]
  rw [NewIdentityFromString, hs,
    split_trim_four _ _ _ _ (addrHex10_ne_colon id.address)
      (mem_b32EncodeToString_ne_colon _) (mem_b32EncodeToString_ne_colon _)
      (addrHex10_not_space id.address) (mem_b32EncodeToString_not_space _)
      (mem_b32EncodeToString_not_space _) (by decide) (by decide)]
  simp only [parseFields, NewAddressFromString_addrHex10, b32DecodeString_b32EncodeToString]
  simp [← h1, hp, hk, IdentityTypeP384PublicKeySize, IdentityTypeP384PrivateKeySize]

/-! ## Shared helpers for the claim theorems -/

theorem Equals_self (a : Identity) : Identity.Equals (some a) (some a) = true := by
  simp [Identity.Equals]

/-! ## Claim theorems -/

/-- C1: For every identity whose public key has the exact length its suite
requires (64 for Curve25519, 114 for P384), parsing the public serialization
`String(i)` succeeds and the result `Equals` the public-only version of `i`;
and if `i` also holds a private key of the exact required length (64 / 112),
parsing `PrivateKeyString(i)` succeeds and the result `Equals i`. -/
theorem C1_serialize_parse_roundtrip (id : Identity)
    (hpub : (id.idtype = IdentityTypeC25519 ∧
              id.publicKey.length = IdentityTypeC25519PublicKeySize) ∨
            (id.idtype = IdentityTypeP384 ∧
              id.publicKey.length = IdentityTypeP384PublicKeySize)) :
    (∃ j, NewIdentityFromString (Identity.String id) = Except.ok j ∧
      Identity.Equals (some j) (some (publicOnlyVersionOf id)) = true) ∧
    (((id.idtype = IdentityTypeC25519 ∧
        id.privateKey.length = IdentityTypeC25519PrivateKeySize) ∨
      (id.idtype = IdentityTypeP384 ∧
        id.privateKey.length = IdentityTypeP384PrivateKeySize)) →
      ∃ j, NewIdentityFromString (Identity.PrivateKeyString id) = Except.ok j ∧
        Identity.Equals (some j) (some id) = true) := by
  constructor
  · rcases hpub with ⟨h0, hp⟩ | ⟨h1, hp⟩
    · exact ⟨publicOnlyVersionOf id, parse_String_c25519 id h0 hp, Equals_self _⟩
    · exact ⟨publicOnlyVersionOf id, parse_String_p384 id h1 hp, Equals_self _⟩
  · intro hpriv
    rcases hpub with ⟨h0, hp⟩ | ⟨h1, hp⟩
    · rcases hpriv with ⟨_, hk⟩ | ⟨h1, _⟩
      · exact ⟨id, parse_PrivateKeyString_c25519 id h0 hp hk, Equals_self _⟩
      · rw [h0] at h1; exact absurd h1 (by simp [IdentityTypeC25519, IdentityTypeP384])
    · rcases hpriv with ⟨h0, _⟩ | ⟨_, hk⟩
      · rw [h1] at h0; exact absurd h0 (by simp [IdentityTypeC25519, IdentityTypeP384])
      · exact ⟨id, parse_PrivateKeyString_p384 id h1 hp hk, Equals_self _⟩

/-- C1 witness: a concrete Curve25519 identity with a private key round-trips
through both serializers. -/
theorem C1_serialize_parse_roundtrip_witness :
    ∃ j, NewIdentityFromString
        (Identity.String ⟨(5 : Address), 0, List.replicate 64 (3 : Byte),
          List.replicate 64 (7 : Byte)⟩) = Except.ok j ∧
      Identity.Equals (some j)
        (some (publicOnlyVersionOf ⟨(5 : Address), 0, List.replicate 64 (3 : Byte),
          List.replicate 64 (7 : Byte)⟩)) = true :=
  (C1_serialize_parse_roundtrip
    ⟨(5 : Address), 0, List.replicate 64 (3 : Byte), List.replicate 64 (7 : Byte)⟩
    (Or.inl ⟨rfl, by decide⟩)).1

/-- C5: `String` yields the canonical public form exactly when the public key
length matches the suite's requirement and the empty string otherwise;
`PrivateKeyString` yields the four-field secret form exactly when both key
lengths match and the empty string otherwise.  (Both functions are total —
the Go originals return a plain `string` and cannot raise.) -/
theorem C5_serializers_soft_failure (id : Identity) :
    (id.idtype = IdentityTypeC25519 →
      Identity.String id =
        (if id.publicKey.length = IdentityTypeC25519PublicKeySize then
          addrHex10 id.address ++ ':' :: '0' :: ':' :: bytesToHex id.publicKey
        else []) ∧
      Identity.PrivateKeyString id =
        (if id.publicKey.length = IdentityTypeC25519PublicKeySize ∧
            id.privateKey.length = IdentityTypeC25519PrivateKeySize then
          addrHex10 id.address ++ ':' :: '0' :: ':' ::
            (bytesToHex id.publicKey ++ ':' :: bytesToHex id.privateKey)
        else [])) ∧
    (id.idtype = IdentityTypeP384 →
      Identity.String id =
        (if id.publicKey.length = IdentityTypeP384PublicKeySize then
          addrHex10 id.address ++ ':' :: '1' :: ':' :: b32EncodeToString id.publicKey
        else []) ∧
      Identity.PrivateKeyString id =
        (if id.publicKey.length = IdentityTypeP384PublicKeySize ∧
            id.privateKey.length = IdentityTypeP384PrivateKeySize then
          addrHex10 id.address ++ ':' :: '1' :: ':' ::
            (b32EncodeToString id.publicKey ++ ':' :: b32EncodeToString id.privateKey)
        else [])) := by
  constructor
  · intro h0
    constructor
    · by_cases hp : id.publicKey.length = IdentityTypeC25519PublicKeySize <;>
        simp [Identity.String, h0, hp, IdentityTypeC25519]
    · by_cases hp : id.publicKey.length = IdentityTypeC25519PublicKeySize ∧
          id.privateKey.length = IdentityTypeC25519PrivateKeySize
      · simp only [if_pos hp]
        simp [Identity.PrivateKeyString, h0, hp.1, hp.2, IdentityTypeC25519]
      · simp only [if_neg hp]
        simp only [Identity.PrivateKeyString, h0, IdentityTypeC25519, if_pos rfl,
          reduceIte]
        rw [if_neg hp]
  · intro h1
    have hne : ¬(id.idtype = IdentityTypeC25519) := by
      rw [h1]; simp [IdentityTypeC25519, IdentityTypeP384]
    constructor
    · by_cases hp : id.publicKey.length = IdentityTypeP384PublicKeySize <;>
        simp [Identity.String, h1, hne, hp, IdentityTypeC25519, IdentityTypeP384]
    · by_cases hp : id.publicKey.length = IdentityTypeP384PublicKeySize ∧
          id.privateKey.length = IdentityTypeP384PrivateKeySize
      · simp only [if_pos hp]
        simp [Identity.PrivateKeyString, h1, hne, hp.1, hp.2, IdentityTypeC25519,
          IdentityTypeP384]
      · simp only [if_neg hp]
        rw [Identity.PrivateKeyString, if_neg hne, if_pos h1, if_neg hp]

/-- C5 witness: a P384 identity with a correct public key but a one-byte
private key serializes publicly but yields the empty secret string. -/
theorem C5_serializers_soft_failure_witness :
    Identity.String ⟨(0 : Address), 1, List.replicate 114 (0 : Byte), [(1 : Byte)]⟩ =
      addrHex10 (0 : Address) ++ ':' :: '1' :: ':' ::
        b32EncodeToString (List.replicate 114 (0 : Byte)) ∧
    Identity.PrivateKeyString ⟨(0 : Address), 1, List.replicate 114 (0 : Byte),
      [(1 : Byte)]⟩ = [] := by
  have h := (C5_serializers_soft_failure
    ⟨(0 : Address), 1, List.replicate 114 (0 : Byte), [(1 : Byte)]⟩).2 rfl
  refine ⟨?_, ?_⟩
  · rw [h.1]; simp [IdentityTypeP384PublicKeySize]
  · rw [h.2]; simp [IdentityTypeP384PublicKeySize, IdentityTypeP384PrivateKeySize]

/-- C6: `Equals` is nil-safe (nil equals only nil) and on two non-nil
identities is exactly byte-for-byte structural equality of address, type,
public key and private key; in particular a public-only identity never
equals one carrying a private key with the same public data. -/
theorem C6_equals_structural :
    (Identity.Equals none none = true) ∧
    (∀ x : Identity,
      Identity.Equals none (some x) = false ∧ Identity.Equals (some x) none = false) ∧
    (∀ a b : Identity, Identity.Equals (some a) (some b) = true ↔
      (a.address = b.address ∧ a.idtype = b.idtype ∧
        a.publicKey = b.publicKey ∧ a.privateKey = b.privateKey)) ∧
    (∀ a b : Identity, a.address = b.address → a.idtype = b.idtype →
      a.publicKey = b.publicKey → a.privateKey = [] → b.privateKey ≠ [] →
      Identity.Equals (some a) (some b) = false) := by
  refine ⟨rfl, fun x => ⟨rfl, rfl⟩, fun a b => ?_, fun a b h1 h2 h3 h4 h5 => ?_⟩
  · simp [Identity.Equals, and_assoc]
  · simp [Identity.Equals, h1, h2, h3, h4]
    tauto

/-- C6 witness: two concrete identities identical except that only one holds
a private key are unequal. -/
theorem C6_equals_structural_witness :
    Identity.Equals (some ⟨(9 : Address), 0, [(1 : Byte)], []⟩)
      (some ⟨(9 : Address), 0, [(1 : Byte)], [(2 : Byte)]⟩) = false :=
  C6_equals_structural.2.2.2 ⟨(9 : Address), 0, [(1 : Byte)], []⟩
    ⟨(9 : Address), 0, [(1 : Byte)], [(2 : Byte)]⟩ rfl rfl rfl rfl (by decide)

/-- C2: At parse time, suite 1 enforces exact key lengths (public 114,
private 112, failing with `ErrInvalidKey`), while suite 0 accepts any
successfully hex-decoded key lengths.  Each part assumes the parse reaches
the corresponding check: the text splits into the stated fields and the
address field parses (the Go code examines the address before the keys). -/
theorem C2_length_enforcement :
    (∀ (s a k : Str) (rest : List Str) (addr : Address) (pub : Bytes),
      splitColon (trimSpace s) = a :: ('1' :: []) :: k :: rest →
      NewAddressFromString a = Except.ok addr →
      b32DecodeString k = some pub → pub.length ≠ 114 →
      NewIdentityFromString s = Except.error ZTError.invalidKey) ∧
    (∀ (s a k k2 : Str) (rest : List Str) (addr : Address) (pub priv : Bytes),
      splitColon (trimSpace s) = a :: ('1' :: []) :: k :: k2 :: rest →
      NewAddressFromString a = Except.ok addr →
      b32DecodeString k = some pub → pub.length = 114 →
      b32DecodeString k2 = some priv → priv.length ≠ 112 →
      NewIdentityFromString s = Except.error ZTError.invalidKey) ∧
    (∀ (s a k : Str) (addr : Address) (pub : Bytes),
      splitColon (trimSpace s) = [a, '0' :: [], k] →
      NewAddressFromString a = Except.ok addr →
      hexDecode k = some pub →
      NewIdentityFromString s = Except.ok ⟨addr, 0, pub, []⟩) ∧
    (∀ (s a k k2 : Str) (rest : List Str) (addr : Address) (pub priv : Bytes),
      splitColon (trimSpace s) = a :: ('0' :: []) :: k :: k2 :: rest →
      NewAddressFromString a = Except.ok addr →
      hexDecode k = some pub → hexDecode k2 = some priv →
      NewIdentityFromString s = Except.ok ⟨addr, 0, pub, priv⟩) := by
  refine ⟨?_, ?_, ?_, ?_⟩
  · intro s a k rest addr pub hsplit haddr hdec hlen
    rw [NewIdentityFromString, hsplit]
    simp [parseFields, haddr, hdec, hlen, IdentityTypeP384PublicKeySize]
  · intro s a k k2 rest addr pub priv hsplit haddr hdec hplen hdec2 hklen
    rw [NewIdentityFromString, hsplit]
    simp [parseFields, haddr, hdec, hplen, hdec2, hklen,
      IdentityTypeP384PublicKeySize, IdentityTypeP384PrivateKeySize]
  · intro s a k addr pub hsplit haddr hdec
    rw [NewIdentityFromString, hsplit]
    simp [parseFields, haddr, hdec]
  · intro s a k k2 rest addr pub priv hsplit haddr hdec hdec2
    rw [NewIdentityFromString, hsplit]
    simp [parseFields, haddr, hdec, hdec2]

set_option maxRecDepth 100000 in
/-- C2 witness: a 1-byte suite-1 public key and a 1-byte suite-1 private key
are rejected with `ErrInvalidKey`, while suite-0 keys of odd sizes (3-byte
public, 2-byte private, or no private field at all) are accepted. -/
theorem C2_length_enforcement_witness :
    NewIdentityFromString (String.data "0000000000:1:aa") =
      Except.error ZTError.invalidKey ∧
    NewIdentityFromString
        (String.data "0000000000:1:" ++ List.replicate 183 'a' ++ String.data ":aa") =
      Except.error ZTError.invalidKey ∧
    NewIdentityFromString (String.data "0000000000:0:aabbcc") =
      Except.ok ⟨(0 : Address), 0, [0xaa, 0xbb, 0xcc], []⟩ ∧
    NewIdentityFromString (String.data "0000000000:0:aa:bbdd") =
      Except.ok ⟨(0 : Address), 0, [0xaa], [0xbb, 0xdd]⟩ := by
  refine ⟨C2_length_enforcement.1 _ (String.data "0000000000") (String.data "aa") []
      (0 : Address) [(0 : Byte)] (by decide) rfl (by decide) (by decide),
    C2_length_enforcement.2.1 _ (String.data "0000000000") (List.replicate 183 'a')
      (String.data "aa") [] (0 : Address) (List.replicate 114 (0 : Byte)) [(0 : Byte)]
      (by decide) rfl (by decide) (by decide) (by decide) (by decide),
    C2_length_enforcement.2.2.1 _ (String.data "0000000000") (String.data "aabbcc")
      (0 : Address) [0xaa, 0xbb, 0xcc] (by decide) rfl (by decide),
    C2_length_enforcement.2.2.2 _ (String.data "0000000000") (String.data "aa")
      (String.data "bbdd") [] (0 : Address) [0xaa] [0xbb, 0xdd]
      (by decide) rfl (by decide) (by decide)⟩

/-- C3 counterexample: the claim says any second field other than "0"/"1"
fails with `UnrecognizedSuite` *regardless of the contents of the address
field*, but the code parses the address first: with a non-hex address field
and suite tag "2" the parse fails with the address parser's error instead. -/
theorem C3_counterexample :
    NewIdentityFromString (String.data "zzzzzzzzzz:2:aa") =
      Except.error ZTError.addressError ∧
    NewIdentityFromString (String.data "zzzzzzzzzz:2:aa") ≠
      Except.error ZTError.unrecognizedIdentityType := by
  refine ⟨rfl, fun h => ?_⟩
  rw [show NewIdentityFromString (String.data "zzzzzzzzzz:2:aa") =
    Except.error ZTError.addressError from rfl] at h
  exact absurd (Except.error.inj h) (by decide)

/-- C3 (amended): for every input whose address field parses successfully
and whose second field is any string other than exactly "0" or "1", parsing
fails with `ErrUnrecognizedIdentityType`, regardless of the key fields. -/
theorem C3_suite_discrimination (s : Str) (a t k : Str) (rest : List Str)
    (addr : Address) (hsplit : splitColon (trimSpace s) = a :: t :: k :: rest)
    (haddr : NewAddressFromString a = Except.ok addr)
    (ht0 : t ≠ '0' :: []) (ht1 : t ≠ '1' :: []) :
    NewIdentityFromString s = Except.error ZTError.unrecognizedIdentityType := by
  rw [NewIdentityFromString, hsplit]
  simp [parseFields, haddr, ht0, ht1]

/-- C3 witness: suite tag "2" with a well-formed address fails with
`ErrUnrecognizedIdentityType`. -/
theorem C3_suite_discrimination_witness :
    NewIdentityFromString (String.data "0000000000:2:aa") =
      Except.error ZTError.unrecognizedIdentityType :=
  C3_suite_discrimination _ (String.data "0000000000") (String.data "2")
    (String.data "aa") [] (0 : Address) (by decide) rfl (by decide) (by decide)

/-- C4 counterexample: on fewer than three fields the code returns
`ErrInvalidParameter` — the very error the claim says is distinct from the
one returned here; there is no separate malformed-identity error value. -/
theorem C4_counterexample :
    NewIdentityFromString (String.data "ab") = Except.error ZTError.invalidParameter ∧
    ¬∃ e, NewIdentityFromString (String.data "ab") = Except.error e ∧
      e ≠ ZTError.invalidParameter := by
  refine ⟨rfl, ?_⟩
  rintro ⟨e, he, hne⟩
  rw [show NewIdentityFromString (String.data "ab") =
    Except.error ZTError.invalidParameter from rfl] at he
  exact hne (Except.error.inj he).symm

/-- C4 (amended): for every input that trims and splits to fewer than three
colon-separated fields, parsing fails with `ErrInvalidParameter` (the code
reuses the invalid-parameter error for malformed identity text; it has no
distinct malformed-identity error value). -/
theorem C4_malformed_text (s : Str)
    (h : (splitColon (trimSpace s)).length < 3) :
    NewIdentityFromString s = Except.error ZTError.invalidParameter := by
  rw [NewIdentityFromString]
  generalize hss : splitColon (trimSpace s) = ss at h ⊢
  rcases ss with _ | ⟨a, _ | ⟨b, _ | ⟨c, r⟩⟩⟩
  · rfl
  · rfl
  · rfl
  · simp only [List.length_cons] at h
    omega

/-- C4 witness: the empty input has one field and fails with
`ErrInvalidParameter`. -/
theorem C4_malformed_text_witness :
    NewIdentityFromString [] = Except.error ZTError.invalidParameter :=
  C4_malformed_text [] (by decide)

/-- C10 counterexample: a fifth field *can* change the result, because
dropping it and re-parsing re-trims the remaining text: with a trailing
space inside the fourth field, the five-field input fails hex decoding
while the text of just its first four fields parses successfully. -/
theorem C10_counterexample :
    NewIdentityFromString (String.data "0000000000:0:aa:bb :cc") =
      Except.error ZTError.hexError ∧
    NewIdentityFromString (String.data "0000000000:0:aa:bb ") =
      Except.ok ⟨(0 : Address), 0, [0xaa], [0xbb]⟩ ∧
    NewIdentityFromString (String.data "0000000000:0:aa:bb :cc") ≠
      NewIdentityFromString (String.data "0000000000:0:aa:bb ") := by
  refine ⟨rfl, rfl, fun h => ?_⟩
  have h2 : (Except.error ZTError.hexError : Except ZTError Identity) =
      Except.ok (⟨(0 : Address), 0, [0xaa], [0xbb]⟩ : Identity) :=
    Eq.trans (Eq.trans (by rfl) h) (by rfl)
  exact Except.noConfusion h2

theorem parseFields_drop_extra (a t k d : Str) (rest : List Str) :
    parseFields (a :: t :: k :: d :: rest) = parseFields [a, t, k, d] := by
  simp only [parseFields]

/-- C10 (amended): fields beyond the fourth are never examined — an input
with four or more fields parses exactly as the field list truncated to its
first four fields.  (Rejoining those four fields into *text* and re-parsing
is not always equivalent, because parsing re-trims whitespace; see the
counterexample.) -/
theorem C10_extra_fields_ignored (s : Str) (a t k d : Str) (rest : List Str)
    (hsplit : splitColon (trimSpace s) = a :: t :: k :: d :: rest) :
    NewIdentityFromString s = parseFields [a, t, k, d] := by
  rw [NewIdentityFromString, hsplit, parseFields_drop_extra]

/-- C10 witness: a fifth garbage field is ignored. -/
theorem C10_extra_fields_ignored_witness :
    NewIdentityFromString (String.data "0000000000:0:aa:bb:!!garbage!!") =
      parseFields [String.data "0000000000", String.data "0",
        String.data "aa", String.data "bb"] :=
  C10_extra_fields_ignored _ (String.data "0000000000") (String.data "0")
    (String.data "aa") (String.data "bb") [String.data "!!garbage!!"] (by decide)

/-! ## Concrete engines and identities used by the façade witnesses -/

/-- A trivial identity for witnesses. -/
def idW : Identity := ⟨(0 : Address), 0, [], []⟩

/-- An engine that always yields a handle and always verifies. -/
def engAccept : CryptoEngine Unit Unit Unit where
  fromString := fun _ => some ()
  verify := fun _ _ _ => true
  makeRootSpec := fun _ _ _ => (1, fun _ => (0 : Byte))
  makeSockaddrStorage := fun _ => some ()

/-- An engine whose handle materialization always fails. -/
def engNoHandle : CryptoEngine Unit Unit Unit where
  fromString := fun _ => none
  verify := fun _ _ _ => true
  makeRootSpec := fun _ _ _ => (1, fun _ => (0 : Byte))
  makeSockaddrStorage := fun _ => some ()

/-- An engine over `Bool` addresses: `false` fails sockaddr conversion; a
successful root-specification call reports 2 bytes of value 7. -/
def engRootOk : CryptoEngine Unit Bool Unit where
  fromString := fun _ => some ()
  verify := fun _ _ _ => true
  makeRootSpec := fun _ _ _ => (2, fun _ => (7 : Byte))
  makeSockaddrStorage := fun b => if b then some () else none

/-- An engine whose root-specification call reports length 0. -/
def engRootZero : CryptoEngine Unit Bool Unit where
  fromString := fun _ => some ()
  verify := fun _ _ _ => true
  makeRootSpec := fun _ _ _ => (0, fun _ => (0 : Byte))
  makeSockaddrStorage := fun _ => some ()

/-- C7: `Verify` fails closed — it returns `false` on an empty signature and
on a failed engine-handle acquisition, and otherwise returns exactly the
engine's boolean verdict.  (The Go function returns a bare `bool`: the model
is a total `Bool`-valued function, so it can never raise.) -/
theorem C7_verify_fails_closed {H A S : Type} (eng : CryptoEngine H A S)
    (id : Identity) (msg sig : Bytes) :
    (sig = [] → Identity.Verify eng id msg sig = false) ∧
    (initCIdentity eng id = none → Identity.Verify eng id msg sig = false) ∧
    (∀ h, sig ≠ [] → initCIdentity eng id = some h →
      Identity.Verify eng id msg sig = eng.verify h msg sig) := by
  refine ⟨fun hs => ?_, fun hh => ?_, fun h hs hh => ?_⟩
  · simp [Identity.Verify, hs]
  · by_cases hl : sig.length = 0
    · simp [Identity.Verify, hl]
    · simp [Identity.Verify, hl, hh]
  · have hl : ¬(sig.length = 0) := by
      simpa [List.length_eq_zero] using hs
    simp [Identity.Verify, hl, hh]

/-- C7 witness: empty signature and failed handle acquisition both yield
`false`; with a handle, the engine's verdict is returned. -/
theorem C7_verify_fails_closed_witness :
    Identity.Verify engAccept idW [(1 : Byte)] [] = false ∧
    Identity.Verify engNoHandle idW [] [(1 : Byte)] = false ∧
    Identity.Verify engAccept idW [] [(1 : Byte)] = true := by
  refine ⟨(C7_verify_fails_closed engAccept idW [(1 : Byte)] []).1 rfl,
    (C7_verify_fails_closed engNoHandle idW [] [(1 : Byte)]).2.1 rfl, ?_⟩
  exact ((C7_verify_fails_closed engAccept idW [] [(1 : Byte)]).2.2 ()
    (by decide) rfl).trans rfl

/-- C8: `MakeRoot` fails with the empty-address-list error on an empty list;
with a non-empty list, a failed handle acquisition gives the
engine-initialization error; any sockaddr conversion failure fails the whole
call with the invalid-address error (and no output); a non-positive
engine-reported length gives the root-specification error; and on success
the result is exactly the engine-reported number of bytes from the output
buffer. -/
theorem C8_makeroot_preconditions {H A S : Type} (eng : CryptoEngine H A S)
    (id : Identity) (addresses : List A) (now : Int) :
    (addresses = [] →
      Identity.MakeRoot eng id addresses now = Except.error ZTError.emptyAddressList) ∧
    (addresses ≠ [] → initCIdentity eng id = none →
      Identity.MakeRoot eng id addresses now = Except.error ZTError.engineInitError) ∧
    (∀ h, addresses ≠ [] → initCIdentity eng id = some h →
      (∃ a ∈ addresses, eng.makeSockaddrStorage a = none) →
      Identity.MakeRoot eng id addresses now = Except.error ZTError.invalidAddress) ∧
    (∀ h ss, addresses ≠ [] → initCIdentity eng id = some h →
      convertAddresses eng.makeSockaddrStorage addresses = some ss →
      ((eng.makeRootSpec h now ss).1 ≤ 0 →
        Identity.MakeRoot eng id addresses now = Except.error ZTError.rootSpecError) ∧
      (0 < (eng.makeRootSpec h now ss).1 →
        Identity.MakeRoot eng id addresses now =
          Except.ok ((List.range (eng.makeRootSpec h now ss).1.toNat).map
            (eng.makeRootSpec h now ss).2) ∧
        ∃ out, Identity.MakeRoot eng id addresses now = Except.ok out ∧
          out.length = (eng.makeRootSpec h now ss).1.toNat)) := by
  have hlen : addresses ≠ [] → ¬(addresses.length = 0) := fun hne => by
    simpa [List.length_eq_zero] using hne
  refine ⟨fun he => ?_, fun hne hh => ?_, fun h hne hh hbad => ?_,
    fun h ss hne hh hconv => ⟨fun hle => ?_, fun hpos => ?_⟩⟩
  · simp [Identity.MakeRoot, he]
  · simp [Identity.MakeRoot, hlen hne, hh]
  · have hcnone : convertAddresses eng.makeSockaddrStorage addresses = none := by
      obtain ⟨a, ha, hfail⟩ := hbad
      clear hlen hne hh
      induction addresses with
      | nil => cases ha
      | cons x r ih =>
        rcases List.mem_cons.mp ha with hx | hr
        · subst hx
          simp [convertAddresses, hfail]
        · cases hfx : eng.makeSockaddrStorage x with
          | none => simp [convertAddresses, hfx]
          | some sx => simp [convertAddresses, hfx, ih hr]
    simp [Identity.MakeRoot, hlen hne, hh, hcnone]
  · simp [Identity.MakeRoot, hlen hne, hh, hconv, hle]
  · have hnle : ¬((eng.makeRootSpec h now ss).1 ≤ 0) := by omega
    refine ⟨?_, ?_⟩
    · simp [Identity.MakeRoot, hlen hne, hh, hconv, hnle]
    · refine ⟨(List.range (eng.makeRootSpec h now ss).1.toNat).map
        (eng.makeRootSpec h now ss).2, ?_, ?_⟩
      · simp [Identity.MakeRoot, hlen hne, hh, hconv, hnle]
      · simp

/-- C8 witness: all five behaviours at concrete engines and address lists. -/
theorem C8_makeroot_preconditions_witness :
    Identity.MakeRoot engRootOk idW ([] : List Bool) 0 =
      Except.error ZTError.emptyAddressList ∧
    Identity.MakeRoot engNoHandle idW [()] 0 = Except.error ZTError.engineInitError ∧
    Identity.MakeRoot engRootOk idW [true, false] 0 =
      Except.error ZTError.invalidAddress ∧
    Identity.MakeRoot engRootZero idW [true] 0 = Except.error ZTError.rootSpecError ∧
    Identity.MakeRoot engRootOk idW [true] 0 =
      Except.ok [(7 : Byte), (7 : Byte)] := by
  refine ⟨(C8_makeroot_preconditions engRootOk idW ([] : List Bool) 0).1 rfl,
    (C8_makeroot_preconditions engNoHandle idW [()] 0).2.1 (by decide) rfl,
    (C8_makeroot_preconditions engRootOk idW [true, false] 0).2.2.1 ()
      (by decide) rfl ⟨false, by decide, rfl⟩,
    ((C8_makeroot_preconditions engRootZero idW [true] 0).2.2.2 () [()]
      (by decide) rfl rfl).1 (by decide), ?_⟩
  exact (((C8_makeroot_preconditions engRootOk idW [true] 0).2.2.2 () [()]
    (by decide) rfl rfl).2 (by decide)).1.trans rfl

/-- C9: `UnmarshalJSON` is atomic — on any error (JSON decode failure or
identity parse failure) the target identity is left exactly as it was, and
on success it is replaced in its entirety by the freshly parsed value. -/
theorem C9_unmarshal_atomicity (id : Identity) (j : Str) :
    ((Identity.UnmarshalJSON id j).1 ≠ none → (Identity.UnmarshalJSON id j).2 = id) ∧
    (∀ s nid, jsonUnmarshalString j = some s →
      NewIdentityFromString s = Except.ok nid →
      Identity.UnmarshalJSON id j = (none, nid)) ∧
    ((Identity.UnmarshalJSON id j).1 = none →
      ∃ s, jsonUnmarshalString j = some s ∧
        NewIdentityFromString s = Except.ok (Identity.UnmarshalJSON id j).2) := by
  cases hj : jsonUnmarshalString j with
  | none =>
    refine ⟨fun _ => by simp [Identity.UnmarshalJSON, hj],
      fun s nid hs hnid => ?_, fun hnone => ?_⟩
    · cases hs
    · simp [Identity.UnmarshalJSON, hj] at hnone
  | some s =>
    cases hp : NewIdentityFromString s with
    | error e =>
      refine ⟨fun _ => by simp [Identity.UnmarshalJSON, hj, hp],
        fun s2 nid hs2 hnid => ?_, fun hnone => ?_⟩
      · cases hs2
        rw [hp] at hnid
        cases hnid
      · simp [Identity.UnmarshalJSON, hj, hp] at hnone
    | ok nid =>
      refine ⟨fun hsome => ?_, fun s2 nid2 hs2 hnid2 => ?_, fun _ => ⟨s, rfl, ?_⟩⟩
      · exact absurd (by simp [Identity.UnmarshalJSON, hj, hp]) hsome
      · cases hs2
        rw [hp] at hnid2
        cases hnid2
        simp [Identity.UnmarshalJSON, hj, hp]
      · simp [Identity.UnmarshalJSON, hj, hp]

/-- C9 witness: a failed unmarshal (non-JSON input) leaves the target
unchanged; a successful one replaces it with the parsed identity. -/
theorem C9_unmarshal_atomicity_witness :
    (Identity.UnmarshalJSON ⟨(3 : Address), 0, [(1 : Byte)], []⟩
      (String.data "notjson")).2 = ⟨(3 : Address), 0, [(1 : Byte)], []⟩ ∧
    Identity.UnmarshalJSON ⟨(3 : Address), 0, [(1 : Byte)], []⟩
      (String.data "\"0000000000:0:aa\"") =
        (none, ⟨(0 : Address), 0, [0xaa], []⟩) := by
  refine ⟨(C9_unmarshal_atomicity ⟨(3 : Address), 0, [(1 : Byte)], []⟩
    (String.data "notjson")).1 (by decide), ?_⟩
  exact (C9_unmarshal_atomicity ⟨(3 : Address), 0, [(1 : Byte)], []⟩
    (String.data "\"0000000000:0:aa\"")).2.1 (String.data "0000000000:0:aa")
    ⟨(0 : Address), 0, [0xaa], []⟩ rfl rfl

end ZeroTier
